import Mathlib

/-!
Verification of the nova402 C library (`src/c/nova402.h`) against its
natural-language specification.  The repository ships only the header:
every function body is absent, so each operation is modelled from the
spec's words, constrained by the declared C prototypes.  Bytes are
modelled as `Nat` values below 256, byte strings as `List Nat`, machine
integers as `Nat` with explicit `% 2 ^ w` where width matters, and
fallible operations return `Except Nova402Error`.
-/

/-- Error taxonomy of the library, from the `NOVA402_ERROR_*` constants
in the header. -/
inductive Nova402Error where
  | invalidInput
  | invalidSignature
  | bufferTooSmall
  | verificationFailed
deriving DecidableEq, Repr

/-- Status code for success (`#define NOVA402_SUCCESS 0`). -/
def NOVA402_SUCCESS : Int := 0

/-- Status code `#define NOVA402_ERROR_INVALID_INPUT -1`. -/
def NOVA402_ERROR_INVALID_INPUT : Int := -1

/-- Status code `#define NOVA402_ERROR_INVALID_SIGNATURE -2`. -/
def NOVA402_ERROR_INVALID_SIGNATURE : Int := -2

/-- Status code `#define NOVA402_ERROR_BUFFER_TOO_SMALL -3`. -/
def NOVA402_ERROR_BUFFER_TOO_SMALL : Int := -3

/-- Status code `#define NOVA402_ERROR_VERIFICATION_FAILED -4`. -/
def NOVA402_ERROR_VERIFICATION_FAILED : Int := -4

/-- A hash value: 32 bytes (`nova402_hash_t`). -/
abbrev Hash := List Nat

/-- Big-endian fixed-width byte encoding of a natural number:
`len` bytes, most significant first. -/
def bytesBE (len n : Nat) : List Nat :=
  (List.range len).map (fun i => n / 256 ^ (len - 1 - i) % 256)

/-- Interpret a byte string as a big-endian natural number. -/
def natOfBytes (bs : List Nat) : Nat :=
  bs.foldl (fun acc b => acc * 256 + b % 256) 0

/-- One absorption step of the modelled digest's internal accumulator
(256-bit state, mixed multiplicatively). -/
def keccakStep (acc b : Nat) : Nat :=
  (acc * 340282366920938463463374607431768211507 + b % 256 + 1) % 2 ^ 256

/-- Modelled from the spec: the body of `nova402_keccak256` (HashEngine
`digest`) is absent from src/ — the header only declares it.  The spec
requires a total, deterministic, 32-byte digest of an arbitrary-length
byte sequence; the claims settled in this file depend only on those
properties, not on the Keccak permutation's internals, so the digest is
modelled as a concrete 256-bit mixing fold emitted big-endian. -/
def nova402_keccak256 (data : List Nat) : Hash :=
  bytesBE 32 (data.foldl keccakStep 1)

/-- Modelled from the spec: the body of `nova402_double_keccak256`
(HashEngine `double_digest`) is absent from src/.  Per the spec it
hashes the input once and re-hashes the resulting 32-byte digest. -/
def nova402_double_keccak256 (data : List Nat) : Hash :=
  nova402_keccak256 (nova402_keccak256 data)

/- ============ MerkleEngine ============ -/

/-- Parent hash of two sibling nodes: digest of the 64-byte
concatenation, per the spec's `hash(left || right)`. -/
def hashPair (a b : Hash) : Hash :=
  nova402_keccak256 (a ++ b)

/-- One level of the Merkle tree: adjacent leaves paired left-to-right
and hashed; an unpaired last node is promoted unchanged.  Modelled from
the spec: the body of `nova402_merkle_root` is absent from src/. -/
def nextLevel : List Hash → List Hash
  | [] => []
  | [x] => [x]
  | a :: b :: rest => hashPair a b :: nextLevel rest

theorem nextLevel_length_le (ls : List Hash) : (nextLevel ls).length ≤ ls.length := by
  induction ls using nextLevel.induct with
  | case1 => simp [nextLevel]
  | case2 x => simp [nextLevel]
  | case3 a b rest ih => simp [nextLevel]; omega

/-- Collapse the levels of the Merkle tree until a single hash remains
(the value written to `*root` by `nova402_merkle_root` on non-empty
input). -/
def merkleRootCore : List Hash → Hash
  | [] => []
  | [x] => x
  | a :: b :: rest => merkleRootCore (hashPair a b :: nextLevel rest)
termination_by ls => ls.length
decreasing_by
  simp
  have := nextLevel_length_le rest
  omega

/-- Modelled from the spec: the body of `nova402_merkle_root` is absent
from src/.  Per the spec, `build_root` fails with `InvalidInput` on an
empty sequence and otherwise folds the levels to a single hash. -/
def nova402_merkle_root (leaves : List Hash) : Except Nova402Error Hash :=
  match leaves with
  | [] => Except.error Nova402Error.invalidInput
  | l => Except.ok (merkleRootCore l)

/-- Default hash used by the total list indexing below. -/
def dHash : Hash := []

/-- Proof step contributed by one tree level for the node at index `i`:
the sibling hash together with its `is_left` bit (`true` when the
sibling sits to the left, i.e. `i` is odd); empty when the node is the
unpaired promoted last node. -/
def siblingStep (ls : List Hash) (i : Nat) : List (Hash × Bool) :=
  if i % 2 = 1 then [(ls.getD (i - 1) dHash, true)]
  else if i + 1 < ls.length then [(ls.getD (i + 1) dHash, false)]
  else []

/-- Modelled from the spec: proof generation (`proof_for`) appears only
in the spec's testable properties — the header declares no generator.
Collects the sibling steps level by level, halving the index. -/
def proofFor (ls : List Hash) (i : Nat) : List (Hash × Bool) :=
  match ls with
  | [] => []
  | [_] => []
  | a :: b :: rest =>
      siblingStep (a :: b :: rest) i ++
        proofFor (hashPair a b :: nextLevel rest) (i / 2)
termination_by ls.length
decreasing_by
  simp
  have := nextLevel_length_le rest
  omega

/-- Fold a proof over the accumulator, re-hashing with the sibling on
the side indicated by the step's `is_left` bit. -/
def foldProof (leaf : Hash) (proof : List (Hash × Bool)) : Hash :=
  proof.foldl (fun acc p => if p.2 then hashPair p.1 acc else hashPair acc p.1) leaf

/-- Modelled from the spec: the body of `nova402_verify_merkle_proof` is
absent from src/.  Per the spec, the accumulator starts at `leaf`, each
step re-hashes with the sibling on the side given by its `is_left` bit,
and verification succeeds iff the final accumulator equals `root`; the
`index` parameter of the C prototype is redundant with the per-step bits
and does not influence the fold. -/
def nova402_verify_merkle_proof (leaf : Hash) (proof : List (Hash × Bool))
    (root : Hash) (index : Nat) : Bool :=
  let _ := index
  foldProof leaf proof == root

/- ============ Validator ============ -/

/-- Hexadecimal digit predicate, accepting both cases
(`0-9`, `a-f`, `A-F`). -/
def isHexChar (c : Char) : Bool :=
  (decide ('0' ≤ c) && decide (c ≤ '9')) ||
  (decide ('a' ≤ c) && decide (c ≤ 'f')) ||
  (decide ('A' ≤ c) && decide (c ≤ 'F'))

/-- Strip one optional leading `0x` marker from a hex string. -/
def dropHexMark (s : List Char) : List Char :=
  if s.take 2 = ['0', 'x'] then s.drop 2 else s

/-- Modelled from the spec: the body of `nova402_validate_address` is
absent from src/.  Per the spec, an address string is well-formed iff
exactly 40 hexadecimal characters follow an optional `0x` marker,
either case accepted. -/
def nova402_validate_address (s : List Char) : Bool :=
  (dropHexMark s).length == 40 && (dropHexMark s).all isHexChar

/-- Modelled from the spec: the body of `nova402_validate_not_expired`
is absent from src/.  The C prototype takes only `valid_before` and
reads the current time from the environment (`nova402_timestamp`); the
embedding passes that clock value as the explicit argument `now`, per
the spec's two-argument predicate `now <= valid_before`. -/
def nova402_validate_not_expired (validBefore now : Nat) : Bool :=
  decide (now ≤ validBefore)

/-- Modelled from the spec: the body of `nova402_validate_time_window`
is absent from src/.  The C prototype takes `(valid_after,
valid_before)` and reads the current time from the environment
(`nova402_timestamp`); the embedding passes that clock value as the
explicit argument `now`, per the spec's three-argument predicate
`valid_after <= now <= valid_before`. -/
def nova402_validate_time_window (validAfter validBefore now : Nat) : Bool :=
  decide (validAfter ≤ now) && decide (now ≤ validBefore)

/- ============ Hex utilities ============ -/

/-- Numeric value of one hex digit, `none` for a non-hex character. -/
def hexDigitVal (c : Char) : Option Nat :=
  if '0' ≤ c ∧ c ≤ '9' then some (c.toNat - '0'.toNat)
  else if 'a' ≤ c ∧ c ≤ 'f' then some (c.toNat - 'a'.toNat + 10)
  else if 'A' ≤ c ∧ c ≤ 'F' then some (c.toNat - 'A'.toNat + 10)
  else none

/-- Decode hex characters two at a time into bytes; `none` on a non-hex
digit or a dangling odd character. -/
def decodeHexPairs : List Char → Option (List Nat)
  | [] => some []
  | [_] => none
  | a :: b :: rest =>
      match hexDigitVal a, hexDigitVal b, decodeHexPairs rest with
      | some hi, some lo, some bs => some ((hi * 16 + lo) :: bs)
      | _, _, _ => none

/-- Modelled from the spec: the body of `nova402_hex_to_bytes` is absent
from src/.  Per the header and spec: an optional `0x` prefix is
accepted, odd length or a non-hex digit fails with
`NOVA402_ERROR_INVALID_INPUT`, an output larger than `max_bytes` fails
with `NOVA402_ERROR_BUFFER_TOO_SMALL`, and success returns the number of
bytes written.  The result pairs the C return value with the bytes
written to the output buffer. -/
def nova402_hex_to_bytes (hex : List Char) (maxBytes : Nat) : Int × List Nat :=
  let body := dropHexMark hex
  match decodeHexPairs body with
  | none => (NOVA402_ERROR_INVALID_INPUT, [])
  | some bs =>
      if maxBytes < bs.length then (NOVA402_ERROR_BUFFER_TOO_SMALL, [])
      else ((bs.length : Int), bs)

/- ============ SignatureEngine ============ -/

/-- Modelled from the spec: the ECDSA implementation behind
`nova402_sign_payment` / `nova402_recover_signer` is absent from src/
(the header only declares the functions), and the spec explicitly
leaves raw field/point arithmetic to an external primitive without
pinning numeric curve parameters.  The scheme is therefore modelled
over a prime-order group — realised as the additive group of
`ZMod curveOrder` with generator `1` and a small stand-in prime order —
which keeps every operation executable while preserving the algebraic
structure the spec's contracts quantify over. -/
def curveOrder : Nat := 101

instance : Fact (Nat.Prime curveOrder) := ⟨by norm_num [curveOrder]⟩

/-- The scalar field of the modelled curve group. -/
abbrev Scalar := ZMod curveOrder

/-- ECDSA signature components (`nova402_signature_t`): the 32-byte
scalars `r` and `s` read as big-endian naturals, plus the 1-byte
recovery discriminant `v`. -/
structure Nova402Signature where
  r : Nat
  s : Nat
  v : Nat
deriving DecidableEq, Repr

/-- Payment data for signing (`nova402_payment_data_t`). -/
structure PaymentData where
  fromAddr : List Nat
  toAddr : List Nat
  value : Nat
  validAfter : Nat
  validBefore : Nat
  nonce : List Nat
deriving DecidableEq, Repr

/-- Modelled from the spec: the fixed domain separator (protocol
name/version, chain id, contract address) whose exact layout the spec
leaves open; any fixed byte string serves the claims. -/
def domainTag : List Nat :=
  [110, 111, 118, 97, 52, 48, 50, 1] ++ bytesBE 8 8453 ++ List.replicate 20 0

/-- Modelled from the spec: canonical signing encoding — domain
separator, then the authorization's fields in fixed order with
fixed-width big-endian integers (addresses 20 bytes, integers 8 bytes,
nonce 32 bytes raw). -/
def encodeForSigning (p : PaymentData) : List Nat :=
  domainTag ++ p.fromAddr ++ p.toAddr ++
    bytesBE 8 (p.value % 2 ^ 64) ++
    bytesBE 8 (p.validAfter % 2 ^ 64) ++
    bytesBE 8 (p.validBefore % 2 ^ 64) ++
    p.nonce

/-- Canonical signing digest of a payment authorization. -/
def digestForSigning (p : PaymentData) : Hash :=
  nova402_keccak256 (encodeForSigning p)

/-- Message digest reduced to a scalar of the curve-order field. -/
def scalarOfDigest (msg : List Nat) : Scalar :=
  (natOfBytes msg : Scalar)

/-- Modelled from the spec: deterministic nonce derivation — the
signing nonce is derived from the private scalar and the message, not
from an external random source. -/
def nonceSeed (d : Nat) (msg : List Nat) : Nat :=
  natOfBytes (nova402_keccak256 (bytesBE 32 d ++ msg))

/-- Deterministic choice of the signing nonce `k` in `[1, n-1]`,
stepping to the next candidate when the first would force `s = 0`
(the standard retry of ECDSA signing, made deterministic). -/
def chooseK (z dd : Scalar) (seed : Nat) : Nat :=
  let k0 := seed % (curveOrder - 1) + 1
  if z + (k0 : Scalar) * dd = 0 then k0 % (curveOrder - 1) + 1 else k0

/-- The signing nonce used for message `msg` and private scalar `d`. -/
def signK (msg : List Nat) (d : Nat) : Nat :=
  chooseK (scalarOfDigest msg) (d : Scalar) (nonceSeed d msg)

/-- The `s`-component produced by signing: `k⁻¹ · (z + r·d)` with
`r = k·G` (generator `1`, so `r = k` as a field element). -/
def signS (msg : List Nat) (d : Nat) : Scalar :=
  (signK msg d : Scalar)⁻¹ * (scalarOfDigest msg + (signK msg d : Scalar) * (d : Scalar))

/-- Modelled from the spec: sign a 32-byte digest with a private
scalar.  Fails with `InvalidInput` if the scalar is zero or not less
than the curve order; otherwise emits `(r, s, v)` with `r` the
x-representation of `k·G`, `s = k⁻¹(z + r·d)`, and the recovery
discriminant `v = 27` selecting `k·G` itself. -/
def signDigest (msg : List Nat) (d : Nat) : Except Nova402Error Nova402Signature :=
  if d = 0 ∨ curveOrder ≤ d then Except.error Nova402Error.invalidInput
  else Except.ok ⟨((signK msg d : Nat) : Scalar).val, (signS msg d).val, 27⟩

/-- Modelled from the spec: `nova402_sign_payment` encodes the payment
into its canonical digest and signs it. -/
def nova402_sign_payment (p : PaymentData) (d : Nat) : Except Nova402Error Nova402Signature :=
  signDigest (digestForSigning p) d

/-- Recovery of the public point from a digest scalar and a signature:
range-checks `r` and `s`, decodes the discriminant into `±(k·G)`, and
returns `r⁻¹ · (s·R − z·G)`.  Fails with `InvalidSignature` exactly
when `r` or `s` is out of range or the discriminant is invalid. -/
def recoverScalar (z : Scalar) (sig : Nova402Signature) : Except Nova402Error Scalar :=
  if sig.r = 0 ∨ curveOrder ≤ sig.r ∨ sig.s = 0 ∨ curveOrder ≤ sig.s then
    Except.error Nova402Error.invalidSignature
  else if sig.v ≠ 27 ∧ sig.v ≠ 28 then
    Except.error Nova402Error.invalidSignature
  else
    Except.ok ((sig.r : Scalar)⁻¹ *
      ((sig.s : Scalar) * (if sig.v = 27 then (sig.r : Scalar) else -(sig.r : Scalar)) - z))

/-- Address of a public point: digest of the public-key encoding, low
20 of the 32 bytes (the spec's `hash of the uncompressed public key,
low-order bytes`). -/
def addressOfPoint (q : Scalar) : List Nat :=
  (nova402_keccak256 (bytesBE 32 q.val)).drop 12

/-- Address derived from a private scalar: address of `d·G`. -/
def addressOfPriv (d : Nat) : List Nat :=
  addressOfPoint (d : Scalar)

/-- Modelled from the spec: `nova402_recover_signer` recovers the
public point from the message digest and signature and derives the
signer's address from it. -/
def nova402_recover_signer (msg : List Nat) (sig : Nova402Signature) :
    Except Nova402Error (List Nat) :=
  (recoverScalar (scalarOfDigest msg) sig).map addressOfPoint

/-- Modelled from the spec: `nova402_verify_signature` recomputes the
signer by recovery over the payment's canonical digest and compares to
the expected signer, returning `false` (never an error) on any
malformed signature or recovery failure — fail-closed. -/
def nova402_verify_signature (p : PaymentData) (sig : Nova402Signature)
    (expected : List Nat) : Bool :=
  match nova402_recover_signer (digestForSigning p) sig with
  | Except.error _ => false
  | Except.ok a => a == expected

/-- Sample leaf used to exercise the Merkle operations. -/
def sampleLeafA : Hash := List.replicate 32 1

/-- Sample leaf used to exercise the Merkle operations. -/
def sampleLeafB : Hash := List.replicate 32 2

/-- Sample leaf used to exercise the Merkle operations. -/
def sampleLeafC : Hash := List.replicate 32 3

/-- Sample payment authorization used to exercise signing. -/
def samplePayment : PaymentData :=
  ⟨List.replicate 20 1, List.replicate 20 2, 5, 10, 20, List.replicate 32 9⟩

/- ============ Helper lemmas ============ -/

theorem chooseK_bounds (z dd : Scalar) (seed : Nat) :
    1 ≤ chooseK z dd seed ∧ chooseK z dd seed ≤ curveOrder - 1 := by
  have hc : curveOrder = 101 := rfl
  simp only [chooseK]
  split <;> rw [hc] <;> omega

theorem scalarCast_ne_zero {a : Nat} (h1 : 0 < a) (h2 : a < curveOrder) :
    (a : Scalar) ≠ 0 := by
  intro h
  rw [ZMod.natCast_zmod_eq_zero_iff_dvd] at h
  exact absurd (Nat.le_of_dvd h1 h) (by omega)

theorem chooseK_avoids (z : Scalar) {d : Nat} (h1 : 0 < d) (h2 : d < curveOrder)
    (seed : Nat) : z + (chooseK z (d : Scalar) seed : Scalar) * (d : Scalar) ≠ 0 := by
  have hd : (d : Scalar) ≠ 0 := scalarCast_ne_zero h1 h2
  simp only [chooseK]
  split
  · rename_i hfirst
    intro hbad
    have hmul : ((seed % (curveOrder - 1) + 1 : Nat) : Scalar) * (d : Scalar)
        = (((seed % (curveOrder - 1) + 1) % (curveOrder - 1) + 1 : Nat) : Scalar) * (d : Scalar) :=
      add_left_cancel (hfirst.trans hbad.symm)
    have hcast := mul_right_cancel₀ hd hmul
    have e0 : ((seed % (curveOrder - 1) + 1 : Nat) : Scalar).val
        = seed % (curveOrder - 1) + 1 :=
      ZMod.val_cast_of_lt (by simp only [curveOrder]; omega)
    have e1 : (((seed % (curveOrder - 1) + 1) % (curveOrder - 1) + 1 : Nat) : Scalar).val
        = (seed % (curveOrder - 1) + 1) % (curveOrder - 1) + 1 :=
      ZMod.val_cast_of_lt (by simp only [curveOrder]; omega)
    have hnat := congrArg ZMod.val hcast
    rw [e0, e1] at hnat
    simp only [curveOrder] at hnat
    omega
  · rename_i hfirst
    exact hfirst

theorem signK_cast_ne_zero (msg : List Nat) (d : Nat) :
    ((signK msg d : Nat) : Scalar) ≠ 0 := by
  have hkb : 1 ≤ signK msg d ∧ signK msg d ≤ curveOrder - 1 := chooseK_bounds _ _ _
  exact scalarCast_ne_zero hkb.1 (by have hc : curveOrder = 101 := rfl; omega)

theorem signS_ne_zero (msg : List Nat) {d : Nat} (h1 : 0 < d) (h2 : d < curveOrder) :
    signS msg d ≠ 0 := by
  have hzrd : scalarOfDigest msg + (signK msg d : Scalar) * (d : Scalar) ≠ 0 :=
    chooseK_avoids (scalarOfDigest msg) h1 h2 (nonceSeed d msg)
  simp only [signS]
  exact mul_ne_zero (inv_ne_zero (signK_cast_ne_zero msg d)) hzrd

theorem signDigest_recover (msg : List Nat) {d : Nat} (h1 : 0 < d) (h2 : d < curveOrder) :
    signDigest msg d = Except.ok ⟨((signK msg d : Nat) : Scalar).val, (signS msg d).val, 27⟩ ∧
    nova402_recover_signer msg ⟨((signK msg d : Nat) : Scalar).val, (signS msg d).val, 27⟩
      = Except.ok (addressOfPriv d) := by
  have hr0 : ((signK msg d : Nat) : Scalar) ≠ 0 := signK_cast_ne_zero msg d
  have hs0 : signS msg d ≠ 0 := signS_ne_zero msg h1 h2
  constructor
  · simp only [signDigest]
    rw [if_neg (by omega)]
  · simp only [nova402_recover_signer, recoverScalar]
    rw [if_neg ?grd1, if_neg (by simp)]
    case grd1 =>
      push_neg
      refine ⟨?_, ?_, ?_, ?_⟩
      · exact fun h => hr0 ((ZMod.val_eq_zero _).mp h)
      · exact ZMod.val_lt _
      · exact fun h => hs0 ((ZMod.val_eq_zero _).mp h)
      · exact ZMod.val_lt _
    have er : ((((signK msg d : Nat) : Scalar)).val : Scalar) = ((signK msg d : Nat) : Scalar) :=
      ZMod.natCast_rightInverse _
    have es : (((signS msg d)).val : Scalar) = signS msg d := ZMod.natCast_rightInverse _
    simp only [Except.map, if_true]
    rw [er, es]
    have halg : ((signK msg d : Nat) : Scalar)⁻¹ *
        (signS msg d * ((signK msg d : Nat) : Scalar) - scalarOfDigest msg) = (d : Scalar) := by
      simp only [signS]
      field_simp
    rw [halg]
    rfl

theorem nextLevel_length (ls : List Hash) :
    (nextLevel ls).length = (ls.length + 1) / 2 := by
  induction ls using nextLevel.induct with
  | case1 => simp [nextLevel]
  | case2 x => simp [nextLevel]
  | case3 a b rest ih =>
    simp only [nextLevel, List.length_cons, ih]
    omega

theorem nextLevel_getD_pair (ls : List Hash) (j : Nat) (h : 2 * j + 1 < ls.length) :
    (nextLevel ls).getD j dHash
      = hashPair (ls.getD (2 * j) dHash) (ls.getD (2 * j + 1) dHash) := by
  induction ls using nextLevel.induct generalizing j with
  | case1 => simp only [List.length_nil] at h; omega
  | case2 x => simp only [List.length_cons, List.length_nil] at h; omega
  | case3 a b rest ih =>
    cases j with
    | zero => simp [nextLevel]
    | succ jj =>
      rw [show 2 * (jj + 1) = (2 * jj + 1) + 1 from by omega]
      simp only [nextLevel, List.getD_cons_succ]
      exact ih jj (by simp only [List.length_cons] at h; omega)

theorem nextLevel_getD_last (ls : List Hash) (j : Nat) (h : 2 * j + 1 = ls.length) :
    (nextLevel ls).getD j dHash = ls.getD (2 * j) dHash := by
  induction ls using nextLevel.induct generalizing j with
  | case1 => simp only [List.length_nil] at h; omega
  | case2 x =>
    have hj : j = 0 := by simp only [List.length_cons, List.length_nil] at h; omega
    subst hj
    simp [nextLevel]
  | case3 a b rest ih =>
    cases j with
    | zero => simp only [List.length_cons] at h; omega
    | succ jj =>
      rw [show 2 * (jj + 1) = (2 * jj + 1) + 1 from by omega]
      simp only [nextLevel, List.getD_cons_succ]
      exact ih jj (by simp only [List.length_cons] at h; omega)

theorem foldProof_append (x : Hash) (p q : List (Hash × Bool)) :
    foldProof x (p ++ q) = foldProof (foldProof x p) q := by
  simp only [foldProof, List.foldl_append]

theorem foldProof_nil (x : Hash) : foldProof x [] = x := rfl

theorem foldProof_cons_sibling_left (x sib : Hash) (rest : List (Hash × Bool)) :
    foldProof x ((sib, true) :: rest) = foldProof (hashPair sib x) rest := rfl

theorem foldProof_cons_sibling_right (x sib : Hash) (rest : List (Hash × Bool)) :
    foldProof x ((sib, false) :: rest) = foldProof (hashPair x sib) rest := rfl

theorem siblingStep_fold (ls : List Hash) (i : Nat) (h : i < ls.length) :
    foldProof (ls.getD i dHash) (siblingStep ls i)
      = (nextLevel ls).getD (i / 2) dHash := by
  by_cases ho : i % 2 = 1
  · simp only [siblingStep, if_pos ho]
    rw [foldProof_cons_sibling_left, foldProof_nil]
    rw [nextLevel_getD_pair ls (i / 2) (by omega)]
    rw [show 2 * (i / 2) + 1 = i from by omega, show 2 * (i / 2) = i - 1 from by omega]
  · have he : i % 2 = 0 := by omega
    by_cases hl : i + 1 < ls.length
    · simp only [siblingStep, if_neg ho, if_pos hl]
      rw [foldProof_cons_sibling_right, foldProof_nil]
      rw [nextLevel_getD_pair ls (i / 2) (by omega)]
      rw [show 2 * (i / 2) + 1 = i + 1 from by omega, show 2 * (i / 2) = i from by omega]
    · have hlast : i + 1 = ls.length := by omega
      simp only [siblingStep, if_neg ho, if_neg hl]
      rw [foldProof_nil]
      rw [nextLevel_getD_last ls (i / 2) (by omega)]
      rw [show 2 * (i / 2) = i from by omega]

theorem foldProof_proofFor (ls : List Hash) (i : Nat) (h : i < ls.length) :
    foldProof (ls.getD i dHash) (proofFor ls i) = merkleRootCore ls := by
  revert h
  induction ls, i using proofFor.induct with
  | case1 i => intro h; simp only [List.length_nil] at h; omega
  | case2 i x =>
    intro h
    have hi : i = 0 := by simp only [List.length_cons, List.length_nil] at h; omega
    subst hi
    simp [proofFor, foldProof, merkleRootCore]
  | case3 i a b rest ih =>
    intro h
    have hnl : nextLevel (a :: b :: rest) = hashPair a b :: nextLevel rest := by
      simp [nextLevel]
    have hlen : i / 2 < (hashPair a b :: nextLevel rest).length := by
      have := nextLevel_length rest
      simp only [List.length_cons] at h ⊢
      omega
    rw [proofFor.eq_def]
    simp only []
    rw [foldProof_append]
    rw [show foldProof ((a :: b :: rest).getD i dHash) (siblingStep (a :: b :: rest) i)
          = (nextLevel (a :: b :: rest)).getD (i / 2) dHash from
        siblingStep_fold (a :: b :: rest) i h]
    rw [hnl]
    rw [ih hlen]
    rw [show merkleRootCore (a :: b :: rest)
          = merkleRootCore (hashPair a b :: nextLevel rest) from by
        simp only [merkleRootCore]]

theorem nextLevel_append_last (ls : List Hash) (h : ls.length % 2 = 0) (x : Hash) :
    nextLevel (ls ++ [x]) = nextLevel ls ++ [x] := by
  induction ls using nextLevel.induct with
  | case1 => simp [nextLevel]
  | case2 y => simp only [List.length_cons, List.length_nil] at h; omega
  | case3 a b rest ih =>
    simp only [List.cons_append, nextLevel, List.append_eq]
    rw [ih (by simp only [List.length_cons] at h; omega)]

theorem dropHexMark_shape (s : List Char) :
    s = '0' :: 'x' :: dropHexMark s ∨ dropHexMark s = s := by
  by_cases h : s.take 2 = ['0', 'x']
  · left
    conv_lhs => rw [← List.take_append_drop 2 s]
    rw [h]
    simp [dropHexMark, h]
  · right
    simp [dropHexMark, h]

theorem dropHexMark_cons2 (rest : List Char) :
    dropHexMark ('0' :: 'x' :: rest) = rest := by
  simp [dropHexMark]

theorem decodeHexPairs_length (l : List Char) (bs : List Nat)
    (h : decodeHexPairs l = some bs) : bs.length = l.length / 2 := by
  induction l using decodeHexPairs.induct generalizing bs with
  | case1 =>
    simp only [decodeHexPairs, Option.some.injEq] at h
    subst h
    simp
  | case2 c => simp [decodeHexPairs] at h
  | case3 a b rest hi lo bs2 hrec hb ha ih =>
    simp only [decodeHexPairs, ha, hb, hrec, Option.some.injEq] at h
    subst h
    have := ih bs2 hrec
    simp only [List.length_cons]
    omega
  | case4 a b rest hnone ih =>
    simp only [decodeHexPairs] at h
    simp at h

/- ============ Claim theorems ============ -/

/-- C6: `double_digest` equals the two-fold composition of `digest`:
for every byte sequence `x`, including the empty sequence,
`nova402_double_keccak256 x = nova402_keccak256 (nova402_keccak256 x)`. -/
theorem C6_double_digest_composition (x : List Nat) :
    nova402_double_keccak256 x = nova402_keccak256 (nova402_keccak256 x) := rfl

/-- C4: `within_window` is a pure predicate over three timestamps:
`nova402_validate_time_window valid_after valid_before now` returns
`true` iff `valid_after ≤ now ≤ valid_before`, with the spec's worked
examples `within_window 100 200 150 = true` and
`within_window 100 200 99 = false`. -/
theorem C4_time_window_iff :
    (∀ validAfter validBefore now : Nat,
      nova402_validate_time_window validAfter validBefore now = true ↔
        validAfter ≤ now ∧ now ≤ validBefore)
    ∧ nova402_validate_time_window 100 200 150 = true
    ∧ nova402_validate_time_window 100 200 99 = false := by
  refine ⟨?_, by decide, by decide⟩
  intro va vb now
  simp [nova402_validate_time_window]

/-- C5: `not_expired` is a pure predicate over two timestamps:
`nova402_validate_not_expired valid_before now` returns `true` iff
`now ≤ valid_before`, with the upper boundary inclusive:
`not_expired 200 200 = true` and `not_expired 200 201 = false`. -/
theorem C5_not_expired_iff :
    (∀ validBefore now : Nat,
      nova402_validate_not_expired validBefore now = true ↔ now ≤ validBefore)
    ∧ nova402_validate_not_expired 200 200 = true
    ∧ nova402_validate_not_expired 200 201 = false := by
  refine ⟨?_, by decide, by decide⟩
  intro vb now
  simp [nova402_validate_not_expired]

/-- C3: `build_root` fails with `InvalidInput` on an empty sequence; on
a non-empty sequence it pairs adjacent leaves left-to-right hashing each
pair with `digest`, repeats level by level until one hash remains, and
at every level with an odd node count promotes the unpaired last node
unchanged (no self-duplication). -/
theorem C3_merkle_root_structure :
    nova402_merkle_root ([] : List Hash) = Except.error Nova402Error.invalidInput
    ∧ (∀ ls : List Hash, ls ≠ [] → nova402_merkle_root ls = Except.ok (merkleRootCore ls))
    ∧ (∀ a b : Hash, ∀ rest : List Hash,
        nextLevel (a :: b :: rest) = hashPair a b :: nextLevel rest)
    ∧ (∀ x : Hash, nextLevel [x] = [x])
    ∧ (∀ ls : List Hash, ls.length % 2 = 0 → ∀ x : Hash,
        nextLevel (ls ++ [x]) = nextLevel ls ++ [x])
    ∧ (∀ a b : Hash, ∀ rest : List Hash,
        merkleRootCore (a :: b :: rest) = merkleRootCore (nextLevel (a :: b :: rest))) := by
  refine ⟨rfl, ?_, fun a b rest => rfl, fun x => rfl, ?_, ?_⟩
  · intro ls h
    match ls with
    | _ :: _ => rfl
  · intro ls h x
    exact nextLevel_append_last ls h x
  · intro a b rest
    simp only [nextLevel, merkleRootCore]

/-- Witness for C3 at concrete leaves: a singleton batch succeeds with
its collapsed root, and the promotion rule moves the odd third leaf up
unchanged. -/
theorem C3_witness :
    (([sampleLeafA] : List Hash) ≠ []
      ∧ ([sampleLeafA, sampleLeafB] : List Hash).length % 2 = 0)
    ∧ nova402_merkle_root [sampleLeafA] = Except.ok (merkleRootCore [sampleLeafA])
    ∧ nextLevel ([sampleLeafA, sampleLeafB] ++ [sampleLeafC])
        = nextLevel [sampleLeafA, sampleLeafB] ++ [sampleLeafC] :=
  ⟨⟨by decide, by decide⟩,
    C3_merkle_root_structure.2.1 [sampleLeafA] (by decide),
    C3_merkle_root_structure.2.2.2.2.1 [sampleLeafA, sampleLeafB] (by decide) sampleLeafC⟩

/-- C2: `verify_proof` starts from the leaf and, for each proof step,
re-hashes with the sibling on the side indicated by the step's
`is_left` bit (`hash(sibling || acc)` when the sibling is on the left,
`hash(acc || sibling)` otherwise), succeeding iff the final accumulator
equals the root; and for every leaf sequence and valid index, the proof
generated for leaf `i` verifies against the root built from the
leaves. -/
theorem C2_verify_proof_correct :
    (∀ leaf root : Hash, ∀ i : Nat,
      nova402_verify_merkle_proof leaf [] root i = (leaf == root))
    ∧ (∀ leaf sib root : Hash, ∀ rest : List (Hash × Bool), ∀ i : Nat,
        nova402_verify_merkle_proof leaf ((sib, true) :: rest) root i
          = nova402_verify_merkle_proof (hashPair sib leaf) rest root i)
    ∧ (∀ leaf sib root : Hash, ∀ rest : List (Hash × Bool), ∀ i : Nat,
        nova402_verify_merkle_proof leaf ((sib, false) :: rest) root i
          = nova402_verify_merkle_proof (hashPair leaf sib) rest root i)
    ∧ (∀ ls : List Hash, ∀ i : Nat, i < ls.length →
        nova402_verify_merkle_proof (ls.getD i dHash) (proofFor ls i)
          (merkleRootCore ls) i = true) := by
  refine ⟨fun leaf root i => rfl, fun leaf sib root rest i => rfl,
    fun leaf sib root rest i => rfl, ?_⟩
  intro ls i h
  simp only [nova402_verify_merkle_proof]
  rw [foldProof_proofFor ls i h]
  simp

/-- Witness for C2: the generated proof for the middle leaf of a
three-leaf batch verifies against the batch root. -/
theorem C2_witness :
    (1 < ([sampleLeafA, sampleLeafB, sampleLeafC] : List Hash).length)
    ∧ nova402_verify_merkle_proof
        (([sampleLeafA, sampleLeafB, sampleLeafC] : List Hash).getD 1 dHash)
        (proofFor [sampleLeafA, sampleLeafB, sampleLeafC] 1)
        (merkleRootCore [sampleLeafA, sampleLeafB, sampleLeafC]) 1 = true :=
  ⟨by decide, C2_verify_proof_correct.2.2.2 [sampleLeafA, sampleLeafB, sampleLeafC] 1 (by decide)⟩

/-- C1: sign/verify/recover round trip — for every valid payment
authorization and every private scalar that is non-zero and below the
curve order, verifying the signature produced by signing the canonical
digest against the signer's own address returns `true`, and recovering
the signer from any digest and the signature produced over that digest
yields the address derived from the private scalar. -/
theorem C1_sign_verify_recover_roundtrip (p : PaymentData) (d : Nat)
    (hp : p.validAfter ≤ p.validBefore) (h1 : 0 < d) (h2 : d < curveOrder) :
    (∃ sig, nova402_sign_payment p d = Except.ok sig ∧
        nova402_verify_signature p sig (addressOfPriv d) = true)
    ∧ ∀ msg : List Nat, ∃ sig, signDigest msg d = Except.ok sig ∧
        nova402_recover_signer msg sig = Except.ok (addressOfPriv d) := by
  constructor
  · obtain ⟨hsig, hrec⟩ := signDigest_recover (digestForSigning p) h1 h2
    refine ⟨_, hsig, ?_⟩
    simp only [nova402_verify_signature]
    rw [hrec]
    simp
  · intro msg
    obtain ⟨hsig, hrec⟩ := signDigest_recover msg h1 h2
    exact ⟨_, hsig, hrec⟩

/-- Witness for C1 at a concrete payment and private scalar. -/
theorem C1_witness :
    (samplePayment.validAfter ≤ samplePayment.validBefore ∧ 0 < 5 ∧ 5 < curveOrder)
    ∧ ((∃ sig, nova402_sign_payment samplePayment 5 = Except.ok sig ∧
          nova402_verify_signature samplePayment sig (addressOfPriv 5) = true)
      ∧ ∀ msg : List Nat, ∃ sig, signDigest msg 5 = Except.ok sig ∧
          nova402_recover_signer msg sig = Except.ok (addressOfPriv 5)) :=
  ⟨⟨by decide, by decide, by decide⟩,
    C1_sign_verify_recover_roundtrip samplePayment 5 (by decide) (by decide) (by decide)⟩

/-- C7: signing rejects invalid keys — `sign` fails with `InvalidInput`
exactly when the private scalar is zero or not less than the curve
order, and otherwise succeeds with a recovery discriminant that makes
signer recovery unambiguous (recovery over the signed digest returns
the signer's own address). -/
theorem C7_sign_rejects_invalid_keys (p : PaymentData) (d : Nat) :
    (nova402_sign_payment p d = Except.error Nova402Error.invalidInput ↔
      d = 0 ∨ curveOrder ≤ d)
    ∧ (0 < d → d < curveOrder →
        ∃ sig, nova402_sign_payment p d = Except.ok sig ∧
          (sig.v = 27 ∨ sig.v = 28) ∧
          nova402_recover_signer (digestForSigning p) sig
            = Except.ok (addressOfPriv d)) := by
  constructor
  · simp only [nova402_sign_payment, signDigest]
    split
    · rename_i hcond
      simp [hcond]
    · rename_i hcond
      simp [hcond]
  · intro h1 h2
    obtain ⟨hsig, hrec⟩ := signDigest_recover (digestForSigning p) h1 h2
    exact ⟨_, hsig, Or.inl rfl, hrec⟩

/-- Witness for C7 at a concrete payment: the zero scalar is rejected
with `InvalidInput` and a valid scalar signs successfully. -/
theorem C7_witness :
    (0 < 7 ∧ 7 < curveOrder)
    ∧ (nova402_sign_payment samplePayment 0 = Except.error Nova402Error.invalidInput ↔
        (0 : Nat) = 0 ∨ curveOrder ≤ 0)
    ∧ (∃ sig, nova402_sign_payment samplePayment 7 = Except.ok sig ∧
        (sig.v = 27 ∨ sig.v = 28) ∧
        nova402_recover_signer (digestForSigning samplePayment) sig
          = Except.ok (addressOfPriv 7)) :=
  ⟨⟨by decide, by decide⟩,
    (C7_sign_rejects_invalid_keys samplePayment 0).1,
    (C7_sign_rejects_invalid_keys samplePayment 7).2 (by decide) (by decide)⟩

/-- C8: verification is fail-closed and recovery raises iff the
signature is malformed — whenever recovery over the payment digest
fails, `verify` returns `false` (it is a total boolean function and
never errors); `recover` fails exactly when `r` or `s` is zero or not
below the curve order or the recovery discriminant is invalid; and
every recovery failure carries the `InvalidSignature` error. -/
theorem C8_verify_fail_closed_recover_iff (p : PaymentData)
    (sig : Nova402Signature) (expected : List Nat) (msg : List Nat) :
    (∀ e, nova402_recover_signer (digestForSigning p) sig = Except.error e →
        nova402_verify_signature p sig expected = false)
    ∧ (nova402_recover_signer msg sig = Except.error Nova402Error.invalidSignature ↔
        sig.r = 0 ∨ curveOrder ≤ sig.r ∨ sig.s = 0 ∨ curveOrder ≤ sig.s ∨
          (sig.v ≠ 27 ∧ sig.v ≠ 28))
    ∧ (∀ e, nova402_recover_signer msg sig = Except.error e →
        e = Nova402Error.invalidSignature) := by
  refine ⟨?_, ?_, ?_⟩
  · intro e h
    simp only [nova402_verify_signature]
    rw [h]
  · simp only [nova402_recover_signer, recoverScalar]
    split
    · rename_i hc
      simp only [Except.map]
      exact iff_of_true trivial (by tauto)
    · rename_i hc
      split
      · rename_i hv
        simp only [Except.map]
        exact iff_of_true trivial (by tauto)
      · rename_i hv
        simp only [Except.map]
        apply iff_of_false (by simp)
        push_neg at hc hv
        obtain ⟨hc1, hc2, hc3, hc4⟩ := hc
        intro hbad
        rcases hbad with h | h | h | h | h
        · exact hc1 h
        · omega
        · exact hc3 h
        · omega
        · exact absurd (hv h.1) h.2
  · simp only [nova402_recover_signer, recoverScalar]
    split
    · intro e h
      simp only [Except.map] at h
      exact (Except.error.inj h).symm
    · split
      · intro e h
        simp only [Except.map] at h
        exact (Except.error.inj h).symm
      · intro e h
        simp only [Except.map] at h
        exact absurd h (by simp)

/-- Witness for C8: a signature with `r = 0` makes recovery fail with
`InvalidSignature` and verification return `false`. -/
theorem C8_witness :
    nova402_recover_signer [] ⟨0, 1, 27⟩ = Except.error Nova402Error.invalidSignature
    ∧ nova402_verify_signature samplePayment ⟨0, 1, 27⟩ [] = false :=
  ⟨(C8_verify_fail_closed_recover_iff samplePayment ⟨0, 1, 27⟩ [] []).2.1.mpr
      (Or.inl rfl),
    (C8_verify_fail_closed_recover_iff samplePayment ⟨0, 1, 27⟩ [] []).1
      Nova402Error.invalidSignature
      ((C8_verify_fail_closed_recover_iff samplePayment ⟨0, 1, 27⟩ []
        (digestForSigning samplePayment)).2.1.mpr (Or.inl rfl))⟩

/-- C9: an address string is well-formed iff exactly 40 hexadecimal
characters follow an optional `0x` marker, with upper- and lower-case
digits accepted alike and no checksum involved.  The body on the right
is forced: a string keeping its `0x` marker cannot itself be the 40-hex
body because `x` is not a hex digit. -/
theorem C9_validate_address_iff :
    (∀ s : List Char, nova402_validate_address s = true ↔
      ∃ body : List Char, (s = '0' :: 'x' :: body ∨ s = body)
        ∧ body.length = 40 ∧ body.all isHexChar = true)
    ∧ isHexChar 'a' = true ∧ isHexChar 'A' = true ∧ isHexChar 'f' = true
    ∧ isHexChar 'F' = true ∧ isHexChar '9' = true
    ∧ isHexChar 'g' = false ∧ isHexChar 'G' = false := by
  refine ⟨?_, by decide, by decide, by decide, by decide, by decide, by decide, by decide⟩
  intro s
  constructor
  · intro h
    simp only [nova402_validate_address, Bool.and_eq_true, beq_iff_eq] at h
    refine ⟨dropHexMark s, ?_, h.1, h.2⟩
    rcases dropHexMark_shape s with hs | hs
    · exact Or.inl hs
    · exact Or.inr hs.symm
  · rintro ⟨body, hshape, hlen, hall⟩
    rcases hshape with h | h
    · subst h
      simp only [nova402_validate_address, dropHexMark_cons2, hlen, hall]
      simp
    · subst h
      have hdrop : dropHexMark s = s := by
        by_cases hb : s.take 2 = ['0', 'x']
        · exfalso
          have hx : 'x' ∈ s := by
            have hmem : 'x' ∈ s.take 2 := by rw [hb]; simp
            exact List.take_subset 2 s hmem
          have hhex := List.all_eq_true.mp hall 'x' hx
          exact absurd hhex (by decide)
        · simp [dropHexMark, hb]
      simp only [nova402_validate_address, hdrop, hlen, hall]
      simp

/-- C10: hex decode return-value convention — success is a non-negative
count equal to half the number of hex digits after the optional `0x`
prefix and bounded by `max_bytes`; failure is a strictly negative error
code; and for the status-code operations success is exactly 0. -/
theorem C10_hex_decode_convention (hex : List Char) (maxBytes : Nat) :
    (0 ≤ (nova402_hex_to_bytes hex maxBytes).1 ↔
      (decodeHexPairs (dropHexMark hex)).isSome = true
        ∧ (dropHexMark hex).length / 2 ≤ maxBytes)
    ∧ (0 ≤ (nova402_hex_to_bytes hex maxBytes).1 →
        (nova402_hex_to_bytes hex maxBytes).1 = ((dropHexMark hex).length / 2 : Int)
        ∧ (nova402_hex_to_bytes hex maxBytes).1 ≤ (maxBytes : Int))
    ∧ ((nova402_hex_to_bytes hex maxBytes).1 < 0 →
        (nova402_hex_to_bytes hex maxBytes).1 = NOVA402_ERROR_INVALID_INPUT
        ∨ (nova402_hex_to_bytes hex maxBytes).1 = NOVA402_ERROR_BUFFER_TOO_SMALL)
    ∧ NOVA402_SUCCESS = 0 := by
  rcases hdec : decodeHexPairs (dropHexMark hex) with _ | bs
  · have hres : nova402_hex_to_bytes hex maxBytes = (NOVA402_ERROR_INVALID_INPUT, []) := by
      simp only [nova402_hex_to_bytes, hdec]
    rw [hres]
    refine ⟨?_, ?_, ?_, rfl⟩
    · exact iff_of_false (by decide) (by simp)
    · intro h
      exact absurd h (by decide)
    · intro h
      exact Or.inl rfl
  · have hblen : bs.length = (dropHexMark hex).length / 2 :=
      decodeHexPairs_length _ _ hdec
    by_cases hmax : maxBytes < bs.length
    · have hres : nova402_hex_to_bytes hex maxBytes
          = (NOVA402_ERROR_BUFFER_TOO_SMALL, []) := by
        simp only [nova402_hex_to_bytes, hdec, if_pos hmax]
      rw [hres]
      refine ⟨?_, ?_, ?_, rfl⟩
      · refine iff_of_false (by decide) ?_
        simp only [Option.isSome_some, true_and]
        omega
      · intro h
        exact absurd h (by decide)
      · intro h
        exact Or.inr rfl
    · have hres : nova402_hex_to_bytes hex maxBytes = ((bs.length : Int), bs) := by
        simp only [nova402_hex_to_bytes, hdec, if_neg hmax]
      rw [hres]
      dsimp only
      refine ⟨?_, ?_, ?_, rfl⟩
      · refine iff_of_true (by positivity) ⟨by simp, by omega⟩
      · intro h
        refine ⟨?_, ?_⟩
        · exact_mod_cast hblen
        · exact_mod_cast Nat.not_lt.mp hmax
      · intro h
        exfalso
        omega

/-- Witness for C10: decoding `0xff` into a 4-byte buffer succeeds with
count 1, which is half the digit count and within the buffer bound. -/
theorem C10_witness :
    (0 : Int) ≤ (nova402_hex_to_bytes ['0', 'x', 'f', 'f'] 4).1
    ∧ ((nova402_hex_to_bytes ['0', 'x', 'f', 'f'] 4).1
        = ((dropHexMark ['0', 'x', 'f', 'f']).length / 2 : Int)
      ∧ (nova402_hex_to_bytes ['0', 'x', 'f', 'f'] 4).1 ≤ ((4 : Nat) : Int)) :=
  ⟨by decide, (C10_hex_decode_convention ['0', 'x', 'f', 'f'] 4).2.1 (by decide)⟩

/-- Witness for C9: a `0x`-prefixed string of forty lower-case hex
digits is accepted. -/
theorem C9_witness :
    nova402_validate_address ('0' :: 'x' :: List.replicate 40 'a') = true :=
  (C9_validate_address_iff.1 ('0' :: 'x' :: List.replicate 40 'a')).mpr
    ⟨List.replicate 40 'a', Or.inl rfl, by decide, by decide⟩
